import Mathlib

/-!
Verification of the Nakama tic-tac-toe backend (`modules/src/match_handler.ts`,
`modules/src/main.ts`).  The TypeScript match handler and RPC functions are
shallowly embedded as Lean functions: JS objects with string keys become
insertion-ordered association lists, `null`-able fields become `Option`, wall
clock timestamps become explicit `Int` parameters, and every storage or
broadcast side effect is reflected in the return value.
-/

namespace TicTacToe

/-- A player symbol, `"X"` or `"O"` in the TypeScript source. -/
inductive Mark
  | X
  | O
deriving DecidableEq, Repr

/-- One board cell: `null` (empty) or a mark, as in `GameState.board`. -/
inductive Cell
  | empty
  | mark (m : Mark)
deriving DecidableEq, Repr

/-- Result of `checkWinner`: `null` (ongoing), `"X"`/`"O"` (win), or `"draw"`. -/
inductive Outcome
  | ongoing
  | win (m : Mark)
  | draw
deriving DecidableEq, Repr

/-- The 8 winning lines from `checkWinner` (3 rows, 3 columns, 2 diagonals). -/
def winningLines : List (Nat × Nat × Nat) :=
  [(0, 1, 2), (3, 4, 5), (6, 7, 8),
   (0, 3, 6), (1, 4, 7), (2, 5, 8),
   (0, 4, 8), (2, 4, 6)]

/-- One iteration of the `checkWinner` loop: the test
`board[a] && board[a] === board[b] && board[a] === board[c]`, returning
`board[a]` on success.  A cell that is `null` (or out of range, i.e.
`undefined`) is falsy and never matches. -/
def lineWin (b : List Cell) (l : Nat × Nat × Nat) : Option Mark :=
  match b[l.1]? with
  | some (Cell.mark m) =>
      if b[l.2.1]? = some (Cell.mark m) ∧ b[l.2.2]? = some (Cell.mark m) then
        some m
      else
        none
  | _ => none

/-- The `checkWinner` loop over `winningLines`: first matching line wins. -/
def findWinAux (b : List Cell) : List (Nat × Nat × Nat) → Option Mark
  | [] => none
  | l :: ls =>
      match lineWin b l with
      | some m => some m
      | none => findWinAux b ls

/-- The all-cells-filled check in `checkWinner` (`board[j] === null` ends it). -/
def allFilled (b : List Cell) : Bool :=
  b.all (fun c => c ≠ Cell.empty)

/-- `checkWinner(board)` from `match_handler.ts`. -/
def checkWinner (b : List Cell) : Outcome :=
  match findWinAux b winningLines with
  | some m => Outcome.win m
  | none => if allFilled b then Outcome.draw else Outcome.ongoing

/-- Spec-side predicate: line `l` holds three equal non-empty marks `m`. -/
def tripleHolds (b : List Cell) (l : Nat × Nat × Nat) (m : Mark) : Prop :=
  b[l.1]? = some (Cell.mark m) ∧ b[l.2.1]? = some (Cell.mark m)
    ∧ b[l.2.2]? = some (Cell.mark m)

instance (b : List Cell) (l : Nat × Nat × Nat) (m : Mark) :
    Decidable (tripleHolds b l m) := by
  unfold tripleHolds
  infer_instance

lemma lineWin_eq_some_iff (b : List Cell) (l : Nat × Nat × Nat) (m : Mark) :
    lineWin b l = some m ↔ tripleHolds b l m := by
  unfold lineWin tripleHolds
  cases h : b[l.1]? with
  | none => simp [h]
  | some c =>
      cases c with
      | empty => simp [h]
      | mark m₀ =>
          simp only [h, Option.some.injEq, Cell.mark.injEq]
          by_cases hbc : b[l.2.1]? = some (Cell.mark m₀) ∧ b[l.2.2]? = some (Cell.mark m₀)
          · rw [if_pos hbc]
            simp only [Option.some.injEq]
            constructor
            · rintro rfl
              exact ⟨rfl, hbc.1, hbc.2⟩
            · rintro ⟨h₁, -, -⟩
              exact h₁
          · rw [if_neg hbc]
            constructor
            · rintro h₁
              cases h₁
            · rintro ⟨rfl, h₂, h₃⟩
              exact absurd ⟨h₂, h₃⟩ hbc

lemma findWinAux_eq_none_iff (b : List Cell) (ls : List (Nat × Nat × Nat)) :
    findWinAux b ls = none ↔ ∀ l ∈ ls, lineWin b l = none := by
  induction ls with
  | nil => simp [findWinAux]
  | cons l ls ih =>
      unfold findWinAux
      cases h : lineWin b l with
      | some m => simp [h]
      | none => simp [h, ih]

lemma findWinAux_eq_some (b : List Cell) (ls : List (Nat × Nat × Nat)) (m : Mark)
    (h : findWinAux b ls = some m) : ∃ l ∈ ls, lineWin b l = some m := by
  induction ls with
  | nil => simp [findWinAux] at h
  | cons l ls ih =>
      unfold findWinAux at h
      cases h₀ : lineWin b l with
      | some m₀ =>
          rw [h₀] at h
          cases h
          exact ⟨l, List.mem_cons_self _ _, h₀⟩
      | none =>
          rw [h₀] at h
          obtain ⟨l₁, hmem, hw⟩ := ih h
          exact ⟨l₁, List.mem_cons_of_mem _ hmem, hw⟩

lemma findWinAux_isSome_of (b : List Cell) (ls : List (Nat × Nat × Nat))
    (h : ∃ l ∈ ls, ∃ m, lineWin b l = some m) : ∃ m, findWinAux b ls = some m := by
  by_contra hnone
  push_neg at hnone
  have h₀ : findWinAux b ls = none := by
    cases h₁ : findWinAux b ls with
    | none => rfl
    | some m => exact absurd h₁ (hnone m)
  rw [findWinAux_eq_none_iff] at h₀
  obtain ⟨l, hmem, m, hw⟩ := h
  rw [h₀ l hmem] at hw
  cases hw

lemma checkWinner_of_findWinAux_some (b : List Cell) (m : Mark)
    (h : findWinAux b winningLines = some m) : checkWinner b = Outcome.win m := by
  unfold checkWinner
  rw [h]

lemma checkWinner_of_none_filled (b : List Cell)
    (h : findWinAux b winningLines = none) (ha : allFilled b = true) :
    checkWinner b = Outcome.draw := by
  unfold checkWinner
  rw [h, if_pos ha]

lemma checkWinner_of_none_not_filled (b : List Cell)
    (h : findWinAux b winningLines = none) (ha : ¬ allFilled b = true) :
    checkWinner b = Outcome.ongoing := by
  unfold checkWinner
  rw [h, if_neg ha]

lemma allFilled_iff (b : List Cell) :
    allFilled b = true ↔ ∀ c ∈ b, c ≠ Cell.empty := by
  simp [allFilled]

lemma findWinAux_win_iff (b : List Cell) :
    (∃ m, findWinAux b winningLines = some m) ↔
      ∃ l ∈ winningLines, ∃ m, tripleHolds b l m := by
  constructor
  · rintro ⟨m, hm⟩
    obtain ⟨l, hmem, hw⟩ := findWinAux_eq_some b winningLines m hm
    exact ⟨l, hmem, m, (lineWin_eq_some_iff b l m).mp hw⟩
  · rintro ⟨l, hmem, m, ht⟩
    exact findWinAux_isSome_of b winningLines
      ⟨l, hmem, m, (lineWin_eq_some_iff b l m).mpr ht⟩

/-- C2: for every 9-cell board, `checkWinner` returns exactly one of
Ongoing, Win, or Draw (the `Outcome` type is exhaustive); it returns a
win exactly when one of the 8 fixed triples holds three equal non-empty
marks (and the reported mark always comes from such a triple); it returns
Draw exactly when no triple matches and every cell is non-empty; and it
returns Ongoing exactly when no triple matches and some cell is empty. -/
theorem checkWinner_characterization (b : List Cell) (hlen : b.length = 9) :
    ((∃ m, checkWinner b = Outcome.win m) ↔
        ∃ l ∈ winningLines, ∃ m, tripleHolds b l m)
    ∧ (∀ m, checkWinner b = Outcome.win m → ∃ l ∈ winningLines, tripleHolds b l m)
    ∧ (checkWinner b = Outcome.draw ↔
        ((¬ ∃ l ∈ winningLines, ∃ m, tripleHolds b l m) ∧ ∀ c ∈ b, c ≠ Cell.empty))
    ∧ (checkWinner b = Outcome.ongoing ↔
        ((¬ ∃ l ∈ winningLines, ∃ m, tripleHolds b l m) ∧ ∃ c ∈ b, c = Cell.empty)) := by
  clear hlen
  cases hf : findWinAux b winningLines with
  | some m₀ =>
      have heq := checkWinner_of_findWinAux_some b m₀ hf
      have hw : ∃ l ∈ winningLines, ∃ m, tripleHolds b l m :=
        (findWinAux_win_iff b).mp ⟨m₀, hf⟩
      refine ⟨⟨fun _ => hw, fun _ => ⟨m₀, heq⟩⟩, ?_, ?_, ?_⟩
      · intro m hm
        rw [heq] at hm
        cases hm
        obtain ⟨l, hmem, hlw⟩ := findWinAux_eq_some b winningLines m₀ hf
        exact ⟨l, hmem, (lineWin_eq_some_iff b l m₀).mp hlw⟩
      · rw [heq]
        constructor
        · rintro h₁
          cases h₁
        · rintro ⟨hno, -⟩
          exact absurd hw hno
      · rw [heq]
        constructor
        · rintro h₁
          cases h₁
        · rintro ⟨hno, -⟩
          exact absurd hw hno
  | none =>
      have hno : ¬ ∃ l ∈ winningLines, ∃ m, tripleHolds b l m := by
        intro h
        obtain ⟨m, hm⟩ := (findWinAux_win_iff b).mpr h
        rw [hf] at hm
        cases hm
      by_cases ha : allFilled b = true
      · have heq := checkWinner_of_none_filled b hf ha
        refine ⟨?_, ?_, ?_, ?_⟩
        · rw [heq]
          constructor
          · rintro ⟨m, hm⟩
            cases hm
          · intro h
            exact absurd h hno
        · intro m hm
          rw [heq] at hm
          cases hm
        · rw [heq]
          exact ⟨fun _ => ⟨hno, (allFilled_iff b).mp ha⟩, fun _ => rfl⟩
        · rw [heq]
          constructor
          · rintro h₁
            cases h₁
          · rintro ⟨hx, c, hc, hce⟩
            exact absurd hce ((allFilled_iff b).mp ha c hc)
      · have heq := checkWinner_of_none_not_filled b hf ha
        refine ⟨?_, ?_, ?_, ?_⟩
        · rw [heq]
          constructor
          · rintro ⟨m, hm⟩
            cases hm
          · intro h
            exact absurd h hno
        · intro m hm
          rw [heq] at hm
          cases hm
        · rw [heq]
          constructor
          · rintro h₁
            cases h₁
          · rintro ⟨hx, hc⟩
            exact absurd ((allFilled_iff b).mpr hc) ha
        · rw [heq]
          refine ⟨fun _ => ⟨hno, ?_⟩, fun _ => rfl⟩
          by_contra hne
          push_neg at hne
          exact ha ((allFilled_iff b).mpr (fun c hc => hne c hc))

/-- Witness for C2 at a concrete board: top row of X marks wins, and the
all-distinct full board below is a draw. -/
theorem checkWinner_characterization_witness :
    (([Cell.mark Mark.X, Cell.mark Mark.X, Cell.mark Mark.X,
       Cell.empty, Cell.empty, Cell.empty,
       Cell.empty, Cell.empty, Cell.empty] : List Cell).length = 9)
    ∧ (∃ l ∈ winningLines, ∃ m,
        tripleHolds [Cell.mark Mark.X, Cell.mark Mark.X, Cell.mark Mark.X,
          Cell.empty, Cell.empty, Cell.empty,
          Cell.empty, Cell.empty, Cell.empty] l m) := by
  constructor
  · rfl
  · exact (checkWinner_characterization
      [Cell.mark Mark.X, Cell.mark Mark.X, Cell.mark Mark.X,
       Cell.empty, Cell.empty, Cell.empty,
       Cell.empty, Cell.empty, Cell.empty] rfl).1.mp ⟨Mark.X, by decide⟩

/-- `GameMode` from `types.ts`: `"classic"` or `"timed"`. -/
inductive GameMode
  | classic
  | timed
deriving DecidableEq, Repr

/-- `GameState.status` from `types.ts`: `"waiting" | "active" | "completed"`. -/
inductive Status
  | waiting
  | active
  | completed
deriving DecidableEq, Repr

/-- One entry of `GameState.players`. -/
structure PlayerInfo where
  username : String
  symbol : Mark
  connected : Bool
deriving DecidableEq, Repr

/-- `GameState` from `types.ts`.  The `players` JS object is embedded as an
insertion-ordered association list (JS objects with non-index string keys
enumerate in insertion order); `winner` holds a user id or the literal
string `"draw"`. -/
structure GameState where
  board : List Cell
  currentTurn : Option String
  players : List (String × PlayerInfo)
  status : Status
  winner : Option String
  mode : GameMode
  createdAt : Int
  turnStartTimestamp : Option Int
deriving DecidableEq, Repr

/-- JS object indexing `obj[k]`: first (unique) binding of key `k`. -/
def assocGet {α : Type} : List (String × α) → String → Option α
  | [], _ => none
  | p :: ps, k => if p.1 = k then some p.2 else assocGet ps k

/-- The fixed 30-second turn duration (`TIMEOUT_MS` in `matchLoop`). -/
def TIMEOUT_MS : Int := 30000

/-- Spec-level view of the turn deadline: the code stores the turn-start
timestamp and compares `now - turnStartTimestamp >= TIMEOUT_MS`, which is
exactly a deadline of `turnStartTimestamp + TIMEOUT_MS`. -/
def turnDeadline (s : GameState) : Option Int :=
  s.turnStartTimestamp.map (fun t => t + TIMEOUT_MS)

/-- `handleMove(state, userId, position, ...)` from `match_handler.ts`.
The returned `Bool` records whether `broadcastState` was invoked (the code
broadcasts exactly when the move passes all four validations).  The
`assocGet ... = none` fallback mirrors the JS `TypeError` a lookup of an
unregistered player would raise: it is caught by `matchLoop`'s
`try/catch` before any mutation, leaving the state unchanged and
unbroadcast. -/
def handleMove (s : GameState) (userId : String) (position : Int) (now : Int) :
    GameState × Bool :=
  if s.status ≠ Status.active then (s, false)
  else if s.currentTurn ≠ some userId then (s, false)
  else if position < 0 ∨ position > 8 then (s, false)
  else if s.board[position.toNat]? ≠ some Cell.empty then (s, false)
  else
    match assocGet s.players userId with
    | none => (s, false)
    | some info =>
        let board1 := s.board.set position.toNat (Cell.mark info.symbol)
        let s1 : GameState := { s with board := board1 }
        match checkWinner board1 with
        | Outcome.win m =>
            let s2 : GameState :=
              match s1.players.find? (fun p => decide (p.2.symbol = m)) with
              | some q =>
                  { s1 with status := Status.completed, winner := some q.1 }
              | none => { s1 with status := Status.completed }
            (s2, true)
        | Outcome.draw =>
            ({ s1 with status := Status.completed, winner := some "draw" }, true)
        | Outcome.ongoing =>
            match s1.players.find? (fun p => decide (p.1 ≠ userId)) with
            | some q =>
                let s2 : GameState := { s1 with currentTurn := some q.1 }
                (if s2.mode = GameMode.timed then
                  { s2 with turnStartTimestamp := some now }
                 else s2, true)
            | none => (s1, true)

/-- C1: a `MakeMove` is accepted (applied and broadcast) iff the four
validation conditions all hold: status active, actor is `currentTurn`,
`0 ≤ position ≤ 8`, and the target cell is empty; a rejected move returns
the state unchanged (in particular `board`, `currentTurn`, and `status`)
and emits no broadcast.  The hypothesis states that the acting player, if
they hold the turn, is registered in `players` — guaranteed for every
state the handler can reach, since `currentTurn` is only ever assigned
ids drawn from the `players` keys. -/
theorem handleMove_accept_iff (s : GameState) (u : String) (pos now : Int)
    (hcur : s.currentTurn = some u → (assocGet s.players u).isSome) :
    ((handleMove s u pos now).2 = true ↔
      (s.status = Status.active ∧ s.currentTurn = some u ∧ 0 ≤ pos ∧ pos ≤ 8
        ∧ s.board[pos.toNat]? = some Cell.empty))
    ∧ ((handleMove s u pos now).2 = false → (handleMove s u pos now).1 = s) := by
  unfold handleMove
  by_cases h1 : s.status = Status.active
  · rw [if_neg (not_not_intro h1)]
    by_cases h2 : s.currentTurn = some u
    · rw [if_neg (not_not_intro h2)]
      by_cases h3 : pos < 0 ∨ pos > 8
      · rw [if_pos h3]
        refine ⟨⟨fun hh => absurd hh Bool.false_ne_true, ?_⟩, fun _ => rfl⟩
        rintro ⟨-, -, hge, hle, -⟩
        rcases h3 with h3 | h3
        · exact absurd hge (not_le.mpr h3)
        · exact absurd hle (not_le.mpr h3)
      · rw [if_neg h3]
        by_cases h4 : s.board[pos.toNat]? = some Cell.empty
        · rw [if_neg (not_not_intro h4)]
          obtain ⟨info, hinfo⟩ := Option.isSome_iff_exists.mp (hcur h2)
          rw [hinfo]
          push_neg at h3
          have hconds : s.status = Status.active ∧ s.currentTurn = some u
              ∧ 0 ≤ pos ∧ pos ≤ 8 ∧ s.board[pos.toNat]? = some Cell.empty :=
            ⟨h1, h2, h3.1, h3.2, h4⟩
          cases hcw : checkWinner (s.board.set pos.toNat (Cell.mark info.symbol)) with
          | win m =>
              cases hfs : List.find? (fun p => decide (p.2.symbol = m)) s.players with
              | some q =>
                  simp only [hcw, hfs]
                  exact ⟨⟨fun _ => hconds, fun _ => by trivial⟩,
                    fun hh => by simp at hh⟩
              | none =>
                  simp only [hcw, hfs]
                  exact ⟨⟨fun _ => hconds, fun _ => by trivial⟩,
                    fun hh => by simp at hh⟩
          | draw =>
              simp only [hcw]
              exact ⟨⟨fun _ => hconds, fun _ => by trivial⟩,
                fun hh => by simp at hh⟩
          | ongoing =>
              cases hfs : List.find? (fun p => decide (p.1 ≠ u)) s.players with
              | some q =>
                  simp only [hcw, hfs]
                  by_cases hm : s.mode = GameMode.timed
                  · rw [if_pos hm]
                    exact ⟨⟨fun _ => hconds, fun _ => by trivial⟩,
                      fun hh => by simp at hh⟩
                  · rw [if_neg hm]
                    exact ⟨⟨fun _ => hconds, fun _ => by trivial⟩,
                      fun hh => by simp at hh⟩
              | none =>
                  simp only [hcw, hfs]
                  exact ⟨⟨fun _ => hconds, fun _ => by trivial⟩,
                    fun hh => by simp at hh⟩
        · rw [if_pos h4]
          refine ⟨⟨fun hh => absurd hh Bool.false_ne_true, ?_⟩, fun _ => rfl⟩
          rintro ⟨-, -, -, -, hc⟩
          exact absurd hc h4
    · rw [if_pos h2]
      refine ⟨⟨fun hh => absurd hh Bool.false_ne_true, ?_⟩, fun _ => rfl⟩
      rintro ⟨-, hc, -⟩
      exact absurd hc h2
  · rw [if_pos h1]
    refine ⟨⟨fun hh => absurd hh Bool.false_ne_true, ?_⟩, fun _ => rfl⟩
    rintro ⟨hc, -⟩
    exact absurd hc h1

/-- A concrete two-player active match used by the witnesses below. -/
def exActive : GameState :=
  { board := List.replicate 9 Cell.empty
    currentTurn := some "A"
    players := [("A", ⟨"alice", Mark.X, true⟩), ("B", ⟨"bob", Mark.O, true⟩)]
    status := Status.active
    winner := none
    mode := GameMode.classic
    createdAt := 0
    turnStartTimestamp := none }

/-- Witness for C1: in the concrete active match, a move by the turn
holder at the empty cell 4 is accepted. -/
theorem handleMove_accept_iff_witness :
    (handleMove exActive "A" 4 0).2 = true :=
  (handleMove_accept_iff exActive "A" 4 0 (by intro h; decide)).1.mpr
    ⟨rfl, rfl, by decide, by decide, by decide⟩

/-- C9: after an accepted move whose resulting board is still ongoing,
`currentTurn` is set to another registered player and hence differs from
the actor; in timed mode the turn deadline is reset to `now + 30s`.  The
hypothesis supplies the other player, present in every reachable
two-player match. -/
theorem handleMove_turn_alternates (s : GameState) (u : String) (pos now : Int)
    (hother : ∃ p ∈ s.players, p.1 ≠ u) :
    (handleMove s u pos now).2 = true →
    checkWinner (handleMove s u pos now).1.board = Outcome.ongoing →
    (∃ v, (handleMove s u pos now).1.currentTurn = some v ∧ v ≠ u
        ∧ ∃ q ∈ s.players, q.1 = v)
    ∧ (s.mode = GameMode.timed →
        turnDeadline (handleMove s u pos now).1 = some (now + TIMEOUT_MS)) := by
  unfold handleMove
  by_cases h1 : s.status = Status.active
  · rw [if_neg (not_not_intro h1)]
    by_cases h2 : s.currentTurn = some u
    · rw [if_neg (not_not_intro h2)]
      by_cases h3 : pos < 0 ∨ pos > 8
      · rw [if_pos h3]
        intro hacc
        exact absurd hacc (by simp)
      · rw [if_neg h3]
        by_cases h4 : s.board[pos.toNat]? = some Cell.empty
        · rw [if_neg (not_not_intro h4)]
          cases hinfo : assocGet s.players u with
          | none =>
              intro hacc
              exact absurd hacc (by simp)
          | some info =>
              cases hcw : checkWinner (s.board.set pos.toNat (Cell.mark info.symbol)) with
              | win m =>
                  cases hfs : List.find? (fun p => decide (p.2.symbol = m)) s.players with
                  | some q =>
                      simp only [hcw, hfs]
                      intro _ hng
                      cases hng
                  | none =>
                      simp only [hcw, hfs]
                      intro _ hng
                      cases hng
              | draw =>
                  simp only [hcw]
                  intro _ hng
                  cases hng
              | ongoing =>
                  have hfind : (List.find? (fun p => decide (p.1 ≠ u)) s.players).isSome := by
                    rw [List.find?_isSome]
                    obtain ⟨p, hp, hpne⟩ := hother
                    exact ⟨p, hp, by simpa using hpne⟩
                  obtain ⟨q, hq⟩ := Option.isSome_iff_exists.mp hfind
                  have hqne : q.1 ≠ u := by
                    have := List.find?_some hq
                    simpa using this
                  have hqmem : q ∈ s.players := List.mem_of_find?_eq_some hq
                  simp only [hcw, hq]
                  intro _ _
                  by_cases hm : s.mode = GameMode.timed
                  · rw [if_pos hm]
                    exact ⟨⟨q.1, rfl, hqne, q, hqmem, rfl⟩,
                      fun _ => by simp [turnDeadline]⟩
                  · rw [if_neg hm]
                    exact ⟨⟨q.1, rfl, hqne, q, hqmem, rfl⟩,
                      fun ht => absurd ht hm⟩
        · rw [if_pos h4]
          intro hacc
          exact absurd hacc (by simp)
    · rw [if_pos h2]
      intro hacc
      exact absurd hacc (by simp)
  · rw [if_pos h1]
    intro hacc
    exact absurd hacc (by simp)

/-- Witness for C9: after A moves at cell 4 of the empty board, the turn
passes to B. -/
theorem handleMove_turn_alternates_witness :
    ∃ v, (handleMove exActive "A" 4 99).1.currentTurn = some v ∧ v ≠ "A"
      ∧ ∃ q ∈ exActive.players, q.1 = v :=
  (handleMove_turn_alternates exActive "A" 4 99
    ⟨("B", ⟨"bob", Mark.O, true⟩), by decide, by decide⟩
    (by decide) (by decide)).1

/-- The turn-timeout check at the end of `matchLoop`: in a timed active
match with a running turn timer, once 30 seconds have elapsed the first
player other than `currentTurn` wins by timeout; the `Bool` records
whether the final state was broadcast. -/
def timeoutCheck (s : GameState) (now : Int) : GameState × Bool :=
  if s.mode = GameMode.timed ∧ s.status = Status.active then
    match s.turnStartTimestamp, s.currentTurn with
    | some ts, some cur =>
        if now - ts ≥ TIMEOUT_MS then
          match s.players.find? (fun p => decide (p.1 ≠ cur)) with
          | some q =>
              ({ s with winner := some q.1, status := Status.completed }, true)
          | none => (s, false)
        else (s, false)
    | _, _ => (s, false)
  else (s, false)

/-- C6: in a timed active two-player match, a tick that observes
`now - turnStartTimestamp ≥ 30s` completes the match with the player who
is not `currentTurn` as winner (and broadcasts); in classic mode the
timeout transition never fires. -/
theorem timeout_completes (s : GameState) (now ts : Int) (u a b : String)
    (pa pb : PlayerInfo) :
    (s.mode = GameMode.timed → s.status = Status.active →
      s.turnStartTimestamp = some ts → s.currentTurn = some u →
      now - ts ≥ TIMEOUT_MS →
      s.players = [(a, pa), (b, pb)] → a ≠ b → (u = a ∨ u = b) →
      (timeoutCheck s now).1.status = Status.completed
        ∧ (timeoutCheck s now).1.winner = some (if u = a then b else a)
        ∧ (timeoutCheck s now).2 = true)
    ∧ (s.mode = GameMode.classic → timeoutCheck s now = (s, false)) := by
  constructor
  · intro hm hs hts hcur hd hp hab huab
    unfold timeoutCheck
    rw [if_pos ⟨hm, hs⟩]
    simp only [hts, hcur]
    rw [if_pos hd]
    rcases huab with rfl | rfl
    · have hfind : List.find? (fun p => decide (p.1 ≠ u)) s.players
          = some (b, pb) := by
        rw [hp]
        rw [List.find?_cons_of_neg _ (by simp)]
        rw [List.find?_cons_of_pos _ (by simp [Ne.symm hab])]
      rw [hfind]
      exact ⟨rfl, by simp, rfl⟩
    · have hfind : List.find? (fun p => decide (p.1 ≠ u)) s.players
          = some (a, pa) := by
        rw [hp]
        rw [List.find?_cons_of_pos _ (by simp [hab])]
      rw [hfind]
      refine ⟨rfl, ?_, rfl⟩
      rw [if_neg (Ne.symm hab)]
  · intro hm
    unfold timeoutCheck
    rw [if_neg (by rintro ⟨h₁, -⟩; rw [hm] at h₁; cases h₁)]

/-- A concrete timed active match whose turn timer started at time 0. -/
def exTimed : GameState :=
  { board := List.replicate 9 Cell.empty
    currentTurn := some "A"
    players := [("A", ⟨"alice", Mark.X, true⟩), ("B", ⟨"bob", Mark.O, true⟩)]
    status := Status.active
    winner := none
    mode := GameMode.timed
    createdAt := 0
    turnStartTimestamp := some 0 }

/-- Witness for C6: at time 30000 the timed match above completes with B
(the non-current player) as winner. -/
theorem timeout_completes_witness :
    (timeoutCheck exTimed 30000).1.status = Status.completed
      ∧ (timeoutCheck exTimed 30000).1.winner = some "B"
      ∧ (timeoutCheck exTimed 30000).2 = true := by
  have h := (timeout_completes exTimed 30000 0 "A" "A" "B"
    ⟨"alice", Mark.X, true⟩ ⟨"bob", Mark.O, true⟩).1
    rfl rfl rfl rfl (by decide) rfl (by decide) (Or.inl rfl)
  exact ⟨h.1, by simpa using h.2.1, h.2.2⟩

/-- `matchInit`: fresh waiting state with an empty 9-cell board. -/
def matchInit (mode : GameMode) (createdAt : Int) : GameState :=
  { board := [Cell.empty, Cell.empty, Cell.empty, Cell.empty, Cell.empty,
              Cell.empty, Cell.empty, Cell.empty, Cell.empty]
    currentTurn := none
    players := []
    status := Status.waiting
    winner := none
    mode := mode
    createdAt := createdAt
    turnStartTimestamp := none }

/-- `matchJoinAttempt`: accept iff fewer than 2 players are present. -/
def matchJoinAttempt (s : GameState) : Bool :=
  decide (s.players.length < 2)

/-- JS object assignment `obj[k] = v`: replace in place, else append. -/
def assocSet {α : Type} : List (String × α) → String → α → List (String × α)
  | [], k, v => [(k, v)]
  | p :: ps, k, v => if p.1 = k then (k, v) :: ps else p :: assocSet ps k v

/-- `presence.username ? presence.username.trim() : "Unknown"`. -/
def normalizeUsername (username : String) : String :=
  if username = "" then "Unknown" else username.trim

/-- The per-presence body of the `matchJoin` loop: assign X to the first
joiner, O to the second, and store the player as connected. -/
def addPlayer (s : GameState) (uid username : String) : GameState :=
  let symbol := if s.players.length = 0 then Mark.X else Mark.O
  { s with players :=
      assocSet s.players uid ⟨normalizeUsername username, symbol, true⟩ }

/-- The both-players-present block of `matchJoin`: set status active, hand
the turn to the first X-holder (if any), and start the turn timer in timed
mode only (`turnStartTimestamp` is set to `null` in classic mode). -/
def startGame (s1 : GameState) (now : Int) : GameState :=
  match s1.players.find? (fun p => decide (p.2.symbol = Mark.X)) with
  | some q =>
      if s1.mode = GameMode.timed then
        { s1 with status := Status.active, currentTurn := some q.1,
                  turnStartTimestamp := some now }
      else
        { s1 with status := Status.active, currentTurn := some q.1,
                  turnStartTimestamp := none }
  | none =>
      if s1.mode = GameMode.timed then
        { s1 with status := Status.active, turnStartTimestamp := some now }
      else
        { s1 with status := Status.active, turnStartTimestamp := none }

/-- `matchJoin(state, presences)`: add every presence `(userId, username)`;
when both players are present, start the game. -/
def matchJoin (s : GameState) (presences : List (String × String)) (now : Int) :
    GameState :=
  let s1 := presences.foldl (fun acc p => addPlayer acc p.1 p.2) s
  if s1.players.length = 2 then startGame s1 now
  else s1

/-- The per-presence body of the `matchLeave` loop: in a waiting match the
player is deleted outright; otherwise they are marked disconnected, and if
the match is still active the first other connected player wins by
forfeit. -/
def markDisconnected (players : List (String × PlayerInfo)) (uid : String) :
    List (String × PlayerInfo) :=
  players.map fun p =>
    if p.1 = uid then (p.1, { p.2 with connected := false }) else p

def leaveOne (s : GameState) (uid : String) : GameState :=
  if s.status = Status.waiting then
    { s with players := s.players.filter (fun p => decide (p.1 ≠ uid)) }
  else
    if s.status = Status.active then
      match (markDisconnected s.players uid).find?
          (fun p => decide (p.1 ≠ uid) && p.2.connected) with
      | some q =>
          { s with players := markDisconnected s.players uid,
                   status := Status.completed, winner := some q.1 }
      | none => { s with players := markDisconnected s.players uid }
    else { s with players := markDisconnected s.players uid }

/-- `matchLeave(state, presences)` over the leaving user ids. -/
def matchLeave (s : GameState) (uids : List String) : GameState :=
  uids.foldl leaveOne s

/-- One externally triggered transition of the match state machine.  A
join carries its admission guard (`matchJoinAttempt` must accept, which
the hosting platform checks before `matchJoin` runs). -/
inductive Step : GameState → GameState → Prop
  | join (s : GameState) (uid uname : String) (now : Int)
      (h : matchJoinAttempt s = true) : Step s (matchJoin s [(uid, uname)] now)
  | move (s : GameState) (uid : String) (pos now : Int) :
      Step s (handleMove s uid pos now).1
  | timeout (s : GameState) (now : Int) : Step s (timeoutCheck s now).1
  | leave (s : GameState) (uids : List String) : Step s (matchLeave s uids)

/-- States reachable from a fresh match through the handler entry points. -/
inductive Reachable : GameState → Prop
  | init (mode : GameMode) (createdAt : Int) : Reachable (matchInit mode createdAt)
  | step {s s' : GameState} : Reachable s → Step s s' → Reachable s'

/-- Rank of a status in the Waiting → Active → Completed chain. -/
def statusRank : Status → Nat
  | Status.waiting => 0
  | Status.active => 1
  | Status.completed => 2

/-- Key invariant: a match that has left `waiting` has exactly 2 players. -/
def Inv (s : GameState) : Prop :=
  s.status ≠ Status.waiting → s.players.length = 2

lemma handleMove_shape (s : GameState) (u : String) (pos now : Int) :
    (handleMove s u pos now).1.players = s.players
    ∧ ((handleMove s u pos now).1.status = s.status
        ∨ (s.status = Status.active
            ∧ (handleMove s u pos now).1.status = Status.completed)) := by
  unfold handleMove
  by_cases h1 : s.status = Status.active
  · rw [if_neg (not_not_intro h1)]
    by_cases h2 : s.currentTurn = some u
    · rw [if_neg (not_not_intro h2)]
      by_cases h3 : pos < 0 ∨ pos > 8
      · rw [if_pos h3]
        exact ⟨rfl, Or.inl rfl⟩
      · rw [if_neg h3]
        by_cases h4 : s.board[pos.toNat]? = some Cell.empty
        · rw [if_neg (not_not_intro h4)]
          cases hinfo : assocGet s.players u with
          | none => exact ⟨rfl, Or.inl rfl⟩
          | some info =>
              cases hcw : checkWinner (s.board.set pos.toNat (Cell.mark info.symbol)) with
              | win m =>
                  cases hfs : List.find? (fun p => decide (p.2.symbol = m)) s.players with
                  | some q =>
                      simp only [hcw, hfs]
                      exact ⟨by trivial, Or.inr ⟨h1, by trivial⟩⟩
                  | none =>
                      simp only [hcw, hfs]
                      exact ⟨by trivial, Or.inr ⟨h1, by trivial⟩⟩
              | draw =>
                  simp only [hcw]
                  exact ⟨by trivial, Or.inr ⟨h1, by trivial⟩⟩
              | ongoing =>
                  cases hfs : List.find? (fun p => decide (p.1 ≠ u)) s.players with
                  | some q =>
                      simp only [hcw, hfs]
                      by_cases hm : s.mode = GameMode.timed
                      · rw [if_pos hm]
                        exact ⟨by trivial, Or.inl (by trivial)⟩
                      · rw [if_neg hm]
                        exact ⟨by trivial, Or.inl (by trivial)⟩
                  | none =>
                      simp only [hcw, hfs]
                      exact ⟨by trivial, Or.inl (by trivial)⟩
        · rw [if_pos h4]
          exact ⟨rfl, Or.inl rfl⟩
    · rw [if_pos h2]
      exact ⟨rfl, Or.inl rfl⟩
  · rw [if_pos h1]
    exact ⟨rfl, Or.inl rfl⟩

lemma timeoutCheck_shape (s : GameState) (now : Int) :
    (timeoutCheck s now).1.players = s.players
    ∧ ((timeoutCheck s now).1.status = s.status
        ∨ (s.status = Status.active
            ∧ (timeoutCheck s now).1.status = Status.completed)) := by
  unfold timeoutCheck
  by_cases hc : s.mode = GameMode.timed ∧ s.status = Status.active
  · rw [if_pos hc]
    cases hts : s.turnStartTimestamp with
    | none => exact ⟨rfl, Or.inl rfl⟩
    | some ts =>
        cases hcur : s.currentTurn with
        | none => exact ⟨rfl, Or.inl rfl⟩
        | some cur =>
            dsimp only
            by_cases hd : now - ts ≥ TIMEOUT_MS
            · rw [if_pos hd]
              cases hfs : List.find? (fun p => decide (p.1 ≠ cur)) s.players with
              | some q => exact ⟨rfl, Or.inr ⟨hc.2, rfl⟩⟩
              | none => exact ⟨rfl, Or.inl rfl⟩
            · rw [if_neg hd]
              exact ⟨rfl, Or.inl rfl⟩
  · rw [if_neg hc]
    exact ⟨rfl, Or.inl rfl⟩

lemma leaveOne_shape (s : GameState) (uid : String) :
    ((leaveOne s uid).status = s.status
      ∨ (s.status = Status.active ∧ (leaveOne s uid).status = Status.completed))
    ∧ (s.status ≠ Status.waiting →
        (leaveOne s uid).players.length = s.players.length) := by
  unfold leaveOne
  by_cases hw : s.status = Status.waiting
  · rw [if_pos hw]
    exact ⟨Or.inl rfl, fun h => absurd hw h⟩
  · rw [if_neg hw]
    by_cases ha : s.status = Status.active
    · rw [if_pos ha]
      cases hfs : (markDisconnected s.players uid).find?
          (fun p => decide (p.1 ≠ uid) && p.2.connected) with
      | some q =>
          exact ⟨Or.inr ⟨ha, by trivial⟩, fun _ => by simp [markDisconnected]⟩
      | none =>
          exact ⟨Or.inl (by trivial), fun _ => by simp [markDisconnected]⟩
    · rw [if_neg ha]
      exact ⟨Or.inl rfl, fun _ => by simp [markDisconnected]⟩

lemma rank_le_of_shape {a b : Status}
    (h : b = a ∨ (a = Status.active ∧ b = Status.completed)) :
    statusRank a ≤ statusRank b := by
  rcases h with rfl | ⟨rfl, rfl⟩
  · exact le_refl _
  · decide

lemma leaveOne_inv (s : GameState) (uid : String) (h : Inv s) :
    Inv (leaveOne s uid) := by
  intro hne
  obtain ⟨hst, hlen⟩ := leaveOne_shape s uid
  rcases hst with heq | ⟨ha, _⟩
  · rw [heq] at hne
    rw [hlen hne]
    exact h hne
  · rw [hlen (by rw [ha]; intro hh; cases hh)]
    exact h (by rw [ha]; intro hh; cases hh)

lemma matchLeave_facts (uids : List String) (s : GameState) :
    (Inv s → Inv (matchLeave s uids))
    ∧ statusRank s.status ≤ statusRank (matchLeave s uids).status
    ∧ ((matchLeave s uids).status = Status.active → s.status = Status.active) := by
  induction uids generalizing s with
  | nil => exact ⟨fun h => h, le_refl _, fun h => h⟩
  | cons uid uids ih =>
      have hstep := leaveOne_shape s uid
      have hrec := ih (leaveOne s uid)
      refine ⟨fun h => hrec.1 (leaveOne_inv s uid h), ?_, ?_⟩
      · exact le_trans (rank_le_of_shape hstep.1) hrec.2.1
      · intro hact
        have h₁ := hrec.2.2 hact
        rcases hstep.1 with heq | ⟨ha, hc⟩
        · rw [← heq, h₁]
        · rw [h₁] at hc
          cases hc

lemma handleMove_completed (s : GameState) (u : String) (pos now : Int)
    (h : s.status = Status.completed) : handleMove s u pos now = (s, false) := by
  unfold handleMove
  rw [if_pos (by rw [h]; intro hh; cases hh)]

lemma startGame_shape (t : GameState) (now : Int) :
    (startGame t now).players = t.players
    ∧ (startGame t now).status = Status.active := by
  unfold startGame
  cases hfs : t.players.find? (fun p => decide (p.2.symbol = Mark.X)) with
  | some q =>
      dsimp only
      by_cases hm : t.mode = GameMode.timed
      · rw [if_pos hm]
        exact ⟨rfl, rfl⟩
      · rw [if_neg hm]
        exact ⟨rfl, rfl⟩
  | none =>
      dsimp only
      by_cases hm : t.mode = GameMode.timed
      · rw [if_pos hm]
        exact ⟨rfl, rfl⟩
      · rw [if_neg hm]
        exact ⟨rfl, rfl⟩

lemma matchJoin_single_shape (s : GameState) (uid uname : String) (now : Int) :
    ((matchJoin s [(uid, uname)] now).status = s.status
        ∧ (matchJoin s [(uid, uname)] now).players
            = (addPlayer s uid uname).players)
    ∨ ((matchJoin s [(uid, uname)] now).status = Status.active
        ∧ (matchJoin s [(uid, uname)] now).players.length = 2) := by
  unfold matchJoin
  simp only [List.foldl_cons, List.foldl_nil]
  by_cases h2 : (addPlayer s uid uname).players.length = 2
  · right
    rw [if_pos h2]
    obtain ⟨hp, hs⟩ := startGame_shape (addPlayer s uid uname) now
    rw [hp, hs]
    exact ⟨rfl, h2⟩
  · left
    rw [if_neg h2]
    exact ⟨rfl, rfl⟩

lemma matchJoin_single_inv (s : GameState) (uid uname : String) (now : Int)
    (hacc : matchJoinAttempt s = true) (hinv : Inv s) :
    Inv (matchJoin s [(uid, uname)] now) ∧ s.status = Status.waiting := by
  have hlt : s.players.length < 2 := by
    unfold matchJoinAttempt at hacc
    exact of_decide_eq_true hacc
  have hw : s.status = Status.waiting := by
    by_contra hne
    have := hinv hne
    omega
  refine ⟨?_, hw⟩
  rcases matchJoin_single_shape s uid uname now with ⟨hs, -⟩ | ⟨-, hl⟩
  · intro hne
    rw [hs, hw] at hne
    exact absurd rfl hne
  · intro _
    exact hl

lemma inv_step {s s' : GameState} (h : Inv s) (hst : Step s s') : Inv s' := by
  cases hst with
  | join uid uname now hacc =>
      exact (matchJoin_single_inv s uid uname now hacc h).1
  | move uid pos now =>
      intro hne
      obtain ⟨hp, hshape⟩ := handleMove_shape s uid pos now
      rw [hp]
      rcases hshape with heq | ⟨ha, _⟩
      · exact h (by rw [← heq]; exact hne)
      · exact h (by rw [ha]; intro hh; cases hh)
  | timeout now =>
      intro hne
      obtain ⟨hp, hshape⟩ := timeoutCheck_shape s now
      rw [hp]
      rcases hshape with heq | ⟨ha, _⟩
      · exact h (by rw [← heq]; exact hne)
      · exact h (by rw [ha]; intro hh; cases hh)
  | leave uids => exact (matchLeave_facts uids s).1 h

lemma reachable_inv {s : GameState} (h : Reachable s) : Inv s := by
  induction h with
  | init mode createdAt =>
      intro hne
      exact absurd rfl hne
  | step _ hst ih => exact inv_step ih hst

/-- C3: along every transition out of a reachable state, the status rank
(Waiting 0, Active 1, Completed 2) never decreases; a state can become
active only from waiting or active (so active is entered exactly once,
from waiting); and once completed, every `MakeMove` returns the state
unchanged with no broadcast. -/
theorem status_monotone_terminal (s s' : GameState)
    (hr : Reachable s) (hst : Step s s') :
    statusRank s.status ≤ statusRank s'.status
    ∧ (s'.status = Status.active →
        s.status = Status.waiting ∨ s.status = Status.active)
    ∧ (s.status = Status.completed →
        ∀ u pos now, handleMove s u pos now = (s, false)) := by
  have hinv := reachable_inv hr
  refine ⟨?_, ?_, fun hc u pos now => handleMove_completed s u pos now hc⟩
  · cases hst with
    | join uid uname now hacc =>
        have hw := (matchJoin_single_inv s uid uname now hacc hinv).2
        rw [hw]
        exact Nat.zero_le _
    | move uid pos now =>
        exact rank_le_of_shape (handleMove_shape s uid pos now).2
    | timeout now =>
        exact rank_le_of_shape (timeoutCheck_shape s now).2
    | leave uids =>
        exact (matchLeave_facts uids s).2.1
  · cases hst with
    | join uid uname now hacc =>
        intro _
        exact Or.inl (matchJoin_single_inv s uid uname now hacc hinv).2
    | move uid pos now =>
        intro hact
        rcases (handleMove_shape s uid pos now).2 with heq | ⟨ha, -⟩
        · right
          rw [← heq, hact]
        · right
          exact ha
    | timeout now =>
        intro hact
        rcases (timeoutCheck_shape s now).2 with heq | ⟨ha, -⟩
        · right
          rw [← heq, hact]
        · right
          exact ha
    | leave uids =>
        intro hact
        exact Or.inr ((matchLeave_facts uids s).2.2 hact)

/-- Witness for C3 along the concrete first join of a fresh match. -/
theorem status_monotone_terminal_witness :
    statusRank (matchInit GameMode.classic 0).status
      ≤ statusRank (matchJoin (matchInit GameMode.classic 0)
          [("A", "alice")] 5).status :=
  (status_monotone_terminal (matchInit GameMode.classic 0) _
    (Reachable.init GameMode.classic 0)
    (Step.join (matchInit GameMode.classic 0) "A" "alice" 5 (by decide))).1

/-- A concrete completed match, both players still marked connected. -/
def exCompleted : GameState :=
  { board := List.replicate 9 Cell.empty
    currentTurn := some "A"
    players := [("A", ⟨"alice", Mark.X, true⟩), ("B", ⟨"bob", Mark.O, true⟩)]
    status := Status.completed
    winner := some "B"
    mode := GameMode.classic
    createdAt := 0
    turnStartTimestamp := none }

/-- C4 counterexample: a player leaving a completed match does change the
state — `matchLeave` still flips the leaving player's `connected` flag
(the disconnect-marking branch runs for every non-waiting status, not
only for active matches). -/
theorem leave_completed_changes_state :
    matchLeave exCompleted ["A"] ≠ exCompleted := by decide

/-- C4 amended: when a player leaves a completed match, the only change is
that the leaving player's `connected` flag is set to false; `status`,
`winner`, `board`, `currentTurn`, `mode`, timestamps, and the set of
player entries (up to that flag) are unchanged, and no forfeit occurs. -/
theorem leave_completed_amended (s : GameState) (uid : String)
    (h : s.status = Status.completed) :
    (leaveOne s uid).status = s.status
    ∧ (leaveOne s uid).winner = s.winner
    ∧ (leaveOne s uid).board = s.board
    ∧ (leaveOne s uid).currentTurn = s.currentTurn
    ∧ (leaveOne s uid).mode = s.mode
    ∧ (leaveOne s uid).turnStartTimestamp = s.turnStartTimestamp
    ∧ (leaveOne s uid).createdAt = s.createdAt
    ∧ (leaveOne s uid).players = markDisconnected s.players uid := by
  unfold leaveOne
  rw [if_neg (by rw [h]; intro hh; cases hh)]
  rw [if_neg (by rw [h]; intro hh; cases hh)]
  exact ⟨rfl, rfl, rfl, rfl, rfl, rfl, rfl, rfl⟩

/-- Witness for the amended C4 at the concrete completed match. -/
theorem leave_completed_amended_witness :
    (leaveOne exCompleted "A").players
      = markDisconnected exCompleted.players "A"
    ∧ (leaveOne exCompleted "A").winner = exCompleted.winner := by
  have h := leave_completed_amended exCompleted "A" rfl
  exact ⟨h.2.2.2.2.2.2.2, h.2.1⟩

/-- The `result` argument of `updateWinStreaks`. -/
inductive GameResult
  | win
  | loss
  | draw
deriving DecidableEq, Repr

/-- The streak update at the heart of `updateWinStreaks`, mapping the
stored `(currentWinStreak, bestWinStreak)` pair: a win increments the
current streak and raises the best streak when exceeded; a loss or draw
resets the current streak and leaves the best streak untouched. -/
def applyStreak : GameResult → Int → Int → Int × Int
  | GameResult.win, cur, best =>
      (cur + 1, if cur + 1 > best then cur + 1 else best)
  | GameResult.loss, _, best => (0, best)
  | GameResult.draw, _, best => (0, best)

/-- C7: the streak write maps the stored pair exactly as the claim says
(increment and raise-best on a win, reset-current and keep-best on a loss
or draw), and for every record with `0 ≤ currentStreak ≤ bestStreak` —
which covers the lazily initialised 0/0 default and every value this
ledger itself ever writes, as the non-negativity conjunct shows — the
invariant `bestStreak ≥ currentStreak` holds after the write. -/
theorem applyStreak_spec (r : GameResult) (cur best : Int)
    (h0 : 0 ≤ cur) (hcb : cur ≤ best) :
    (applyStreak GameResult.win cur best
        = (cur + 1, if cur + 1 > best then cur + 1 else best))
    ∧ (r ≠ GameResult.win → applyStreak r cur best = (0, best))
    ∧ (applyStreak r cur best).1 ≤ (applyStreak r cur best).2
    ∧ 0 ≤ (applyStreak r cur best).1 := by
  refine ⟨rfl, ?_, ?_, ?_⟩
  · intro hne
    cases r with
    | win => exact absurd rfl hne
    | loss => rfl
    | draw => rfl
  · cases r with
    | win =>
        show cur + 1 ≤ if cur + 1 > best then cur + 1 else best
        by_cases hgt : cur + 1 > best
        · rw [if_pos hgt]
        · rw [if_neg hgt]
          omega
    | loss =>
        show (0 : Int) ≤ best
        omega
    | draw =>
        show (0 : Int) ≤ best
        omega
  · cases r with
    | win =>
        show (0 : Int) ≤ cur + 1
        omega
    | loss => exact le_refl 0
    | draw => exact le_refl 0

/-- Witness for C7: a loss at streak 2 (best 5) resets to 0 and keeps the
invariant. -/
theorem applyStreak_spec_witness :
    applyStreak GameResult.loss 2 5 = (0, 5)
    ∧ (applyStreak GameResult.loss 2 5).1 ≤ (applyStreak GameResult.loss 2 5).2 := by
  have h := applyStreak_spec GameResult.loss 2 5 (by decide) (by decide)
  exact ⟨h.2.1 (by decide), h.2.2.1⟩

/-- Sub-deletions attempted by the delete-account RPC, in program order. -/
inductive DelOp
  | delWins
  | delLosses
  | delStreak
  | delAccount
deriving DecidableEq, Repr

/-- `rpcDeleteUserData` from `main.ts`.  Each collaborator outcome flag
says whether the corresponding delete call succeeds; every one of the
four calls — `leaderboardRecordDelete` (wins and losses),
`storageDelete`, and also `accountDeleteId` — sits in its own `try/catch`
that logs and continues, so the flags never influence the caller-visible
`success`.  The returned list records the attempted operations with
their outcomes; the only failure path is a missing (falsy) user id. -/
def rpcDeleteUserData (userId : String)
    (winsOk lossesOk streakOk accountOk : Bool) : Bool × List (DelOp × Bool) :=
  if userId = "" then (false, [])
  else
    (true,
      [(DelOp.delWins, winsOk), (DelOp.delLosses, lossesOk),
       (DelOp.delStreak, streakOk), (DelOp.delAccount, accountOk)])

/-- C5 counterexample: when every sub-delete succeeds but the core account
record cannot be removed (`accountOk = false`), the RPC still reports
success — no hard failure is surfaced (`accountDeleteId` failures are
caught, logged, and deliberately not returned, per the code comment). -/
theorem deleteUserData_account_failure_still_success :
    (rpcDeleteUserData "u1" true true true false).1 = true := by decide

/-- C5 amended: the caller-visible result is independent of all four
sub-delete outcomes, including the account record deletion; it reports
success exactly when the calling context carries a user id. -/
theorem deleteUserData_amended (userId : String)
    (winsOk lossesOk streakOk accountOk w2 l2 s2 a2 : Bool) :
    ((rpcDeleteUserData userId winsOk lossesOk streakOk accountOk).1
        = (rpcDeleteUserData userId w2 l2 s2 a2).1)
    ∧ ((rpcDeleteUserData userId winsOk lossesOk streakOk accountOk).1 = true
        ↔ userId ≠ "") := by
  unfold rpcDeleteUserData
  by_cases h : userId = ""
  · rw [if_pos h, if_pos h]
    simp [h]
  · rw [if_neg h, if_neg h]
    simp [h]

/-- The mode handling of `rpcFindMatch`: `data.mode || "timed"` (a missing
field or falsy value — the empty string for string-typed payload fields —
falls back to `"timed"`), then the invalid-mode check that throws unless
the mode is `"classic"` or `"timed"`. -/
def resolveMode (modeField : Option String) : Except String String :=
  let mode :=
    match modeField with
    | none => "timed"
    | some s => if s = "" then "timed" else s
  if mode ≠ "classic" ∧ mode ≠ "timed" then
    Except.error "Invalid mode. Must be classic or timed"
  else Except.ok mode

/-- C10: a payload without a mode field, or with a falsy one, does not
raise the invalid-mode error and proceeds with `"timed"`; for a genuinely
supplied (non-falsy) mode the error is raised exactly when the value is
neither `"classic"` nor `"timed"`, and otherwise the supplied mode is
used. -/
theorem resolveMode_spec :
    resolveMode none = Except.ok "timed"
    ∧ resolveMode (some "") = Except.ok "timed"
    ∧ ∀ s, s ≠ "" →
        ((∃ e, resolveMode (some s) = Except.error e)
          ↔ (s ≠ "classic" ∧ s ≠ "timed"))
        ∧ (s = "classic" ∨ s = "timed" → resolveMode (some s) = Except.ok s) := by
  refine ⟨rfl, rfl, ?_⟩
  intro s hs
  unfold resolveMode
  dsimp only
  rw [if_neg hs]
  by_cases hc : s ≠ "classic" ∧ s ≠ "timed"
  · rw [if_pos hc]
    constructor
    · exact ⟨fun _ => hc, fun _ => ⟨_, rfl⟩⟩
    · rintro (rfl | rfl)
      · exact absurd rfl hc.1
      · exact absurd rfl hc.2
  · rw [if_neg hc]
    constructor
    · constructor
      · rintro ⟨e, he⟩
        cases he
      · intro h
        exact absurd h hc
    · intro _
      rfl

/-- Witness for C10: the unsupported mode string `"blitz"` raises the
invalid-mode error. -/
theorem resolveMode_spec_witness :
    ∃ e, resolveMode (some "blitz") = Except.error e :=
  ((resolveMode_spec.2.2 "blitz" (by decide)).1).mpr ⟨by decide, by decide⟩

/-- One record returned by `leaderboardRecordsList`. -/
structure LBRecord where
  ownerId : String
  username : String
  score : Int
deriving DecidableEq, Repr

/-- One value of the `playerStats` map in `rpcGetLeaderboard`. -/
structure PlayerStat where
  userId : String
  username : String
  wins : Int
  losses : Int
deriving DecidableEq, Repr

/-- One entry of the returned leaderboard. -/
structure LBEntry where
  userId : String
  username : String
  wins : Int
  losses : Int
  winRate : ℚ
  winStreak : Int
  bestWinStreak : Int
deriving DecidableEq, Repr

/-- `record.username || "Unknown"`. -/
def lbUsername (u : String) : String :=
  if u = "" then "Unknown" else u

/-- The wins loop of `rpcGetLeaderboard`: seed `playerStats` rows. -/
def winsFold (m : List (String × PlayerStat)) :
    List LBRecord → List (String × PlayerStat)
  | [] => m
  | r :: rs =>
      winsFold
        (assocSet m r.ownerId ⟨r.ownerId, lbUsername r.username, r.score, 0⟩) rs

/-- The losses loop: update an existing row's losses, else add a row with
0 wins. -/
def lossesFold (m : List (String × PlayerStat)) :
    List LBRecord → List (String × PlayerStat)
  | [] => m
  | r :: rs =>
      lossesFold
        (match assocGet m r.ownerId with
         | some st => assocSet m r.ownerId { st with losses := r.score }
         | none =>
             assocSet m r.ownerId ⟨r.ownerId, lbUsername r.username, 0, r.score⟩)
        rs

/-- The combined `playerStats` map after both loops. -/
def buildStats (wins losses : List LBRecord) : List (String × PlayerStat) :=
  lossesFold (winsFold [] wins) losses

/-- `Math.round`: round half toward positive infinity. -/
def jsRound (q : ℚ) : Int := ⌊q + 1 / 2⌋

/-- The per-player row construction: win rate (0 without games) rounded to
one decimal via `Math.round(winRate * 10) / 10`, streaks from the Streak
Ledger lookup (modelled as the `streaks` collaborator function). -/
def mkRow (streaks : String → Int × Int) (st : PlayerStat) : LBEntry :=
  let total := st.wins + st.losses
  let rate : ℚ := if total > 0 then (st.wins : ℚ) / (total : ℚ) * 100 else 0
  { userId := st.userId
    username := st.username
    wins := st.wins
    losses := st.losses
    winRate := (jsRound (rate * 10) : ℚ) / 10
    winStreak := (streaks st.userId).1
    bestWinStreak := (streaks st.userId).2 }

/-- `rpcGetLeaderboard`: join the two record lists, build rows, sort by
wins descending (JS `Array.prototype.sort` is stable, as is `mergeSort`),
and keep the top 10. -/
def rpcGetLeaderboard (wins losses : List LBRecord)
    (streaks : String → Int × Int) : List LBEntry :=
  (((buildStats wins losses).map (fun p => mkRow streaks p.2)).mergeSort
      (fun a b => decide (b.wins ≤ a.wins))).take 10

lemma assocGet_set_self {α : Type} (m : List (String × α)) (k : String) (v : α) :
    assocGet (assocSet m k v) k = some v := by
  induction m with
  | nil => simp [assocSet, assocGet]
  | cons p ps ih =>
      unfold assocSet
      by_cases h : p.1 = k
      · rw [if_pos h]
        simp [assocGet]
      · rw [if_neg h]
        unfold assocGet
        rw [if_neg h]
        exact ih

lemma assocGet_set_other {α : Type} (m : List (String × α)) (k k' : String)
    (v : α) (h : k ≠ k') :
    assocGet (assocSet m k v) k' = assocGet m k' := by
  induction m with
  | nil =>
      unfold assocSet assocGet
      rw [if_neg h]
      rfl
  | cons p ps ih =>
      unfold assocSet
      by_cases hp : p.1 = k
      · rw [if_pos hp]
        unfold assocGet
        rw [if_neg h, if_neg (hp ▸ h)]
      · rw [if_neg hp]
        unfold assocGet
        by_cases hp' : p.1 = k'
        · rw [if_pos hp', if_pos hp']
        · rw [if_neg hp', if_neg hp']
          exact ih

lemma winsFold_get_of_not_mem (rs : List LBRecord)
    (m : List (String × PlayerStat)) (id : String)
    (h : ∀ r ∈ rs, r.ownerId ≠ id) :
    assocGet (winsFold m rs) id = assocGet m id := by
  induction rs generalizing m with
  | nil => rfl
  | cons r rs ih =>
      unfold winsFold
      rw [ih _ (fun x hx => h x (List.mem_cons_of_mem _ hx))]
      exact assocGet_set_other _ _ _ _ (h r (List.mem_cons_self _ _))

lemma lossesFold_get_of_not_mem (rs : List LBRecord)
    (m : List (String × PlayerStat)) (id : String)
    (h : ∀ r ∈ rs, r.ownerId ≠ id) :
    assocGet (lossesFold m rs) id = assocGet m id := by
  induction rs generalizing m with
  | nil => rfl
  | cons r rs ih =>
      unfold lossesFold
      rw [ih _ (fun x hx => h x (List.mem_cons_of_mem _ hx))]
      cases hg : assocGet m r.ownerId with
      | some st => exact assocGet_set_other _ _ _ _ (h r (List.mem_cons_self _ _))
      | none => exact assocGet_set_other _ _ _ _ (h r (List.mem_cons_self _ _))

lemma winsFold_get (rs : List LBRecord) (m : List (String × PlayerStat))
    (id : String) (hnd : (rs.map LBRecord.ownerId).Nodup) :
    assocGet (winsFold m rs) id =
      match rs.find? (fun r => decide (r.ownerId = id)) with
      | some r => some ⟨r.ownerId, lbUsername r.username, r.score, 0⟩
      | none => assocGet m id := by
  induction rs generalizing m with
  | nil => rfl
  | cons r rs ih =>
      rw [List.map_cons, List.nodup_cons] at hnd
      obtain ⟨hnotmem, hndtail⟩ := hnd
      unfold winsFold
      by_cases hr : r.ownerId = id
      · rw [List.find?_cons_of_pos _ (by simpa using hr)]
        have hnm : ∀ x ∈ rs, x.ownerId ≠ id := by
          intro x hx hxid
          have hmem : x.ownerId ∈ rs.map LBRecord.ownerId :=
            List.mem_map_of_mem _ hx
          rw [hxid, ← hr] at hmem
          exact hnotmem hmem
        subst hr
        rw [winsFold_get_of_not_mem rs _ _ hnm, assocGet_set_self]
      · rw [List.find?_cons_of_neg _ (by simpa using hr)]
        rw [ih _ hndtail]
        cases hf : rs.find? (fun x => decide (x.ownerId = id)) with
        | some x => rfl
        | none => exact assocGet_set_other _ _ _ _ hr

lemma lossesFold_get (rs : List LBRecord) (m : List (String × PlayerStat))
    (id : String) (hnd : (rs.map LBRecord.ownerId).Nodup) :
    assocGet (lossesFold m rs) id =
      match rs.find? (fun r => decide (r.ownerId = id)) with
      | some r =>
          match assocGet m id with
          | some st => some { st with losses := r.score }
          | none => some ⟨r.ownerId, lbUsername r.username, 0, r.score⟩
      | none => assocGet m id := by
  induction rs generalizing m with
  | nil => rfl
  | cons r rs ih =>
      rw [List.map_cons, List.nodup_cons] at hnd
      obtain ⟨hnotmem, hndtail⟩ := hnd
      unfold lossesFold
      by_cases hr : r.ownerId = id
      · rw [List.find?_cons_of_pos _ (by simpa using hr)]
        have hnm : ∀ x ∈ rs, x.ownerId ≠ id := by
          intro x hx hxid
          have hmem : x.ownerId ∈ rs.map LBRecord.ownerId :=
            List.mem_map_of_mem _ hx
          rw [hxid, ← hr] at hmem
          exact hnotmem hmem
        subst hr
        rw [lossesFold_get_of_not_mem rs _ _ hnm]
        cases hg : assocGet m r.ownerId with
        | some st => rw [assocGet_set_self]
        | none => rw [assocGet_set_self]
      · rw [List.find?_cons_of_neg _ (by simpa using hr)]
        rw [ih _ hndtail]
        cases hf : rs.find? (fun x => decide (x.ownerId = id)) with
        | some x =>
            cases hg : assocGet m r.ownerId with
            | some st =>
                rw [assocGet_set_other _ _ _ _ hr]
            | none =>
                rw [assocGet_set_other _ _ _ _ hr]
        | none =>
            cases hg : assocGet m r.ownerId with
            | some st => exact assocGet_set_other _ _ _ _ hr
            | none => exact assocGet_set_other _ _ _ _ hr

lemma buildStats_get (wins losses : List LBRecord) (id : String)
    (hw : (wins.map LBRecord.ownerId).Nodup)
    (hl : (losses.map LBRecord.ownerId).Nodup) :
    assocGet (buildStats wins losses) id =
      match wins.find? (fun r => decide (r.ownerId = id)),
            losses.find? (fun r => decide (r.ownerId = id)) with
      | some w, some l =>
          some ⟨w.ownerId, lbUsername w.username, w.score, l.score⟩
      | some w, none => some ⟨w.ownerId, lbUsername w.username, w.score, 0⟩
      | none, some l => some ⟨l.ownerId, lbUsername l.username, 0, l.score⟩
      | none, none => none := by
  unfold buildStats
  rw [lossesFold_get _ _ _ hl]
  cases hfl : losses.find? (fun r => decide (r.ownerId = id)) with
  | some l =>
      rw [winsFold_get _ _ _ hw]
      cases hfw : wins.find? (fun r => decide (r.ownerId = id)) with
      | some w => rfl
      | none => rfl
  | none =>
      rw [winsFold_get _ _ _ hw]
      cases hfw : wins.find? (fun r => decide (r.ownerId = id)) with
      | some w => rfl
      | none => rfl

lemma mkRow_winRate (streaks : String → Int × Int) (st : PlayerStat) :
    (mkRow streaks st).winRate =
      if (mkRow streaks st).wins + (mkRow streaks st).losses > 0 then
        (jsRound (((mkRow streaks st).wins : ℚ)
          / (((mkRow streaks st).wins : ℚ) + ((mkRow streaks st).losses : ℚ))
          * 100 * 10) : ℚ) / 10
      else 0 := by
  unfold mkRow
  dsimp only
  by_cases ht : st.wins + st.losses > 0
  · rw [if_pos ht, if_pos ht]
    norm_num
  · rw [if_neg ht, if_neg ht]
    norm_num [jsRound]

lemma leaderboard_mem (wins losses : List LBRecord)
    (streaks : String → Int × Int) (e : LBEntry)
    (he : e ∈ rpcGetLeaderboard wins losses streaks) :
    ∃ st : PlayerStat, e = mkRow streaks st := by
  unfold rpcGetLeaderboard at he
  have h1 := List.take_subset _ _ he
  have h2 : e ∈ (buildStats wins losses).map (fun p => mkRow streaks p.2) :=
    (List.mergeSort_perm _ _).mem_iff.mp h1
  obtain ⟨p, hp, hpe⟩ := List.mem_map.mp h2
  exact ⟨p.2, hpe.symm⟩

/-- C8: the Leaderboard Query (1) outer-joins the fetched win and loss
records by player id, defaulting the missing side's counter to 0; (2)
gives every returned row the win rate
`round(wins / (wins + losses) * 100 * 10) / 10` (one decimal), or 0 when
no games were played; (3) returns rows sorted descending by wins; and
(4) returns at most 10 rows.  The hypotheses say each fetched list holds
at most one record per player, which the ranking store guarantees. -/
theorem leaderboard_spec (wins losses : List LBRecord)
    (streaks : String → Int × Int)
    (hw : (wins.map LBRecord.ownerId).Nodup)
    (hl : (losses.map LBRecord.ownerId).Nodup) :
    (∀ id, assocGet (buildStats wins losses) id =
      match wins.find? (fun r => decide (r.ownerId = id)),
            losses.find? (fun r => decide (r.ownerId = id)) with
      | some w, some l =>
          some ⟨w.ownerId, lbUsername w.username, w.score, l.score⟩
      | some w, none => some ⟨w.ownerId, lbUsername w.username, w.score, 0⟩
      | none, some l => some ⟨l.ownerId, lbUsername l.username, 0, l.score⟩
      | none, none => none)
    ∧ (∀ e ∈ rpcGetLeaderboard wins losses streaks,
        e.winRate =
          if e.wins + e.losses > 0 then
            (jsRound ((e.wins : ℚ) / ((e.wins : ℚ) + (e.losses : ℚ))
              * 100 * 10) : ℚ) / 10
          else 0)
    ∧ (rpcGetLeaderboard wins losses streaks).Pairwise
        (fun a b => b.wins ≤ a.wins)
    ∧ (rpcGetLeaderboard wins losses streaks).length ≤ 10 := by
  refine ⟨fun id => buildStats_get wins losses id hw hl, ?_, ?_, ?_⟩
  · intro e he
    obtain ⟨st, rfl⟩ := leaderboard_mem wins losses streaks e he
    exact mkRow_winRate streaks st
  · have hsorted := @List.sorted_mergeSort LBEntry
      (fun a b => decide (b.wins ≤ a.wins))
      (fun a b c hab hbc => by
        simp only [decide_eq_true_eq] at hab hbc ⊢
        exact le_trans hbc hab)
      (fun a b => by
        simp only [Bool.or_eq_true, decide_eq_true_eq]
        exact le_total b.wins a.wins)
      ((buildStats wins losses).map (fun p => mkRow streaks p.2))
    have hpw : (((buildStats wins losses).map
        (fun p => mkRow streaks p.2)).mergeSort
          (fun a b => decide (b.wins ≤ a.wins))).Pairwise
        (fun a b : LBEntry => b.wins ≤ a.wins) :=
      hsorted.imp (fun h => by simpa using h)
    exact hpw.sublist (List.take_sublist _ _)
  · exact List.length_take_le _ _

/-- Witness for C8 on concrete record lists: u2 appears in both lists and
is joined with wins 1 and losses 2, and the result fits in 10 rows. -/
theorem leaderboard_spec_witness :
    assocGet (buildStats
        [⟨"u1", "alice", 3⟩, ⟨"u2", "bob", 1⟩] [⟨"u2", "bob", 2⟩] ) "u2"
      = some ⟨"u2", "bob", 1, 2⟩
    ∧ (rpcGetLeaderboard [⟨"u1", "alice", 3⟩, ⟨"u2", "bob", 1⟩]
        [⟨"u2", "bob", 2⟩] (fun _ => (0, 0))).length ≤ 10 := by
  have h := leaderboard_spec
    [⟨"u1", "alice", 3⟩, ⟨"u2", "bob", 1⟩] [⟨"u2", "bob", 2⟩]
    (fun _ => (0, 0)) (by decide) (by decide)
  refine ⟨?_, h.2.2.2⟩
  rw [h.1 "u2"]
  rfl

end TicTacToe
